import Mathlib

/-!
Shallow embedding of the core runtime of the signal-client repository, and
proofs about it.  Each definition mirrors one Python function or class of
the repository:

* `CircuitBreaker` and `guard` mirror
  src/signal_client/services/circuit_breaker.py
  (CircuitBreaker.guard, CircuitBreaker._trip, CircuitBreaker._reset).
* Python floats (monotonic timestamps, thresholds) are modelled as rationals,
  and Python int counters as naturals.
-/

namespace SignalClient

/-! ## Circuit breaker (services/circuit_breaker.py) -/

/-- States of the per-endpoint circuit-breaker state machine
(class CircuitBreakerState). -/
inductive CircuitBreakerState where
  | CLOSED
  | OPEN
  | HALF_OPEN
  deriving DecidableEq, Repr

/-- Per-endpoint mutable record (dataclass EndpointState).  Field defaults
mirror the dataclass defaults. -/
structure EndpointState where
  state : CircuitBreakerState := .CLOSED
  failures : ℕ := 0
  consecutive_failures : ℕ := 0
  last_failure_time : ℚ := 0
  successes : ℕ := 0
  requests : ℕ := 0
  deriving DecidableEq, Repr

/-- The fresh endpoint state created by dict.setdefault in guard. -/
def EndpointState.initial : EndpointState := {}

/-- Configuration of CircuitBreaker.__init__. -/
structure CircuitBreaker where
  failure_threshold : ℕ
  reset_timeout : ℚ
  failure_rate_threshold : ℚ
  min_requests_for_rate_calc : ℕ
  deriving Repr

/-- Result of one guarded call: the guard raised ConnectionAbortedError
without running the call, the call ran and succeeded, or the call ran,
failed, and the original exception was re-raised. -/
inductive GuardOutcome where
  | rejected
  | success
  | failureReraised
  deriving DecidableEq, Repr

/-- First phase of CircuitBreaker.guard (the OPEN check before the yield):
returns whether the guarded call is allowed to run, together with the
endpoint state after the possible OPEN to HALF_OPEN transition.  Mirrors
lines 54-64 of circuit_breaker.py: when the state is OPEN, the call is let
through (after moving to HALF_OPEN) only when
now - last_failure_time > reset_timeout, strictly. -/
def guardOpenCheck (cb : CircuitBreaker) (es : EndpointState) (now : ℚ) :
    Bool × EndpointState :=
  if es.state = CircuitBreakerState.OPEN then
    if now - es.last_failure_time > cb.reset_timeout then
      (true, { es with state := CircuitBreakerState.HALF_OPEN })
    else
      (false, es)
  else
    (true, es)

/-- CircuitBreaker._trip: move to OPEN, stamp last_failure_time with the
current monotonic time, and zero every counter. -/
def trip (now : ℚ) (es : EndpointState) : EndpointState :=
  { es with
    state := CircuitBreakerState.OPEN
    last_failure_time := now
    failures := 0
    consecutive_failures := 0
    successes := 0
    requests := 0 }

/-- CircuitBreaker._reset: move to CLOSED and zero every counter. -/
def reset (es : EndpointState) : EndpointState :=
  { es with
    state := CircuitBreakerState.CLOSED
    failures := 0
    consecutive_failures := 0
    successes := 0
    requests := 0 }

/-- The trip condition of the except branch of guard (lines 72-80),
evaluated on the state after the failure counters were incremented.
Python divides two ints with float division; the model uses exact rational
division, which is faithful up to float rounding. -/
def tripCondition (cb : CircuitBreaker) (es : EndpointState) : Prop :=
  es.state = CircuitBreakerState.HALF_OPEN
    ∨ es.consecutive_failures ≥ cb.failure_threshold
    ∨ (es.requests ≥ cb.min_requests_for_rate_calc
        ∧ (es.failures : ℚ) / (es.requests : ℚ) ≥ cb.failure_rate_threshold)

instance (cb : CircuitBreaker) (es : EndpointState) :
    Decidable (tripCondition cb es) := by
  unfold tripCondition; infer_instance

/-- Body of guard once the call was let through (lines 66-87): increment
requests, run the call; on success increment successes, zero
consecutive_failures and reset when HALF_OPEN; on failure increment
failures and consecutive_failures and trip when the trip condition holds,
re-raising either way.  The Boolean callSucceeds stands for the outcome of
the guarded call. -/
def guardRun (cb : CircuitBreaker) (es : EndpointState) (now : ℚ)
    (callSucceeds : Bool) : GuardOutcome × EndpointState :=
  let es1 := { es with requests := es.requests + 1 }
  if callSucceeds then
    let es2 := { es1 with
      successes := es1.successes + 1
      consecutive_failures := 0 }
    if es2.state = CircuitBreakerState.HALF_OPEN then
      (GuardOutcome.success, reset es2)
    else
      (GuardOutcome.success, es2)
  else
    let es2 := { es1 with
      failures := es1.failures + 1
      consecutive_failures := es1.consecutive_failures + 1 }
    if tripCondition cb es2 then
      (GuardOutcome.failureReraised, trip now es2)
    else
      (GuardOutcome.failureReraised, es2)

/-- One full guard call on a single endpoint state: the OPEN check followed,
when allowed, by the guarded call itself. -/
def guard (cb : CircuitBreaker) (es : EndpointState) (now : ℚ)
    (callSucceeds : Bool) : GuardOutcome × EndpointState :=
  let allowed := guardOpenCheck cb es now
  if allowed.1 then guardRun cb allowed.2 now callSucceeds
  else (GuardOutcome.rejected, allowed.2)

/-- Endpoint states reachable from the fresh state by any sequence of guard
calls, at arbitrary call times and call outcomes. -/
inductive ReachableEndpointState (cb : CircuitBreaker) : EndpointState → Prop where
  | init : ReachableEndpointState cb EndpointState.initial
  | step (es : EndpointState) (now : ℚ) (callSucceeds : Bool) :
      ReachableEndpointState cb es →
      ReachableEndpointState cb (guard cb es now callSucceeds).2

/-- All four counters of an endpoint state are zero. -/
def countersZero (es : EndpointState) : Prop :=
  es.requests = 0 ∧ es.failures = 0 ∧ es.consecutive_failures = 0 ∧ es.successes = 0

instance (es : EndpointState) : Decidable (countersZero es) := by
  unfold countersZero; infer_instance

/-- Invariant: every reachable endpoint state that is OPEN has all four
counters at zero, because OPEN is only ever entered through trip and no
counter changes while the state stays OPEN. -/
theorem reachable_open_countersZero (cb : CircuitBreaker) (es : EndpointState)
    (h : ReachableEndpointState cb es) :
    es.state = CircuitBreakerState.OPEN → countersZero es := by
  induction h with
  | init => intro hst; cases hst
  | step es now b _ ih =>
    intro hst
    revert hst
    unfold guard guardOpenCheck guardRun
    by_cases hOpen : es.state = CircuitBreakerState.OPEN
    · by_cases hElapsed : now - es.last_failure_time > cb.reset_timeout
      · simp only [hOpen, if_pos, hElapsed, if_true]
        cases b with
        | true =>
          intro hst
          simp_all [reset]
        | false =>
          simp only [Bool.false_eq_true, if_false]
          split
          next htc =>
            intro _
            simp [trip, countersZero]
          next htc =>
            intro _
            exact absurd (Or.inl rfl) htc
      · simp only [hOpen, if_pos, hElapsed, if_false]
        exact ih
    · simp only [hOpen, if_neg, if_false, if_true]
      cases b with
      | true =>
        simp only [if_true]
        split
        next hHalf =>
          intro hst
          simp [reset] at hst
        next hHalf =>
          intro hst
          simp_all
      | false =>
        simp only [Bool.false_eq_true, if_false]
        split
        next htc =>
          intro _
          simp [trip, countersZero]
        next htc =>
          intro hst
          simp_all

/-- C1: every state transition of a reachable endpoint state machine resets
all four counters: the OPEN to HALF_OPEN transition of the open check leaves
all counters at zero, and any transition performed by the guarded-call body
(trip to OPEN from CLOSED or HALF_OPEN, reset to CLOSED from HALF_OPEN)
leaves all counters at zero. -/
theorem circuit_breaker_transition_resets_counters
    (cb : CircuitBreaker) (es : EndpointState)
    (h : ReachableEndpointState cb es) (now : ℚ) (callSucceeds : Bool) :
    ((guardOpenCheck cb es now).2.state ≠ es.state →
        countersZero (guardOpenCheck cb es now).2) ∧
      ((guard cb es now callSucceeds).2.state ≠ (guardOpenCheck cb es now).2.state →
        countersZero (guard cb es now callSucceeds).2) := by
  constructor
  · unfold guardOpenCheck
    by_cases hOpen : es.state = CircuitBreakerState.OPEN
    · by_cases hElapsed : now - es.last_failure_time > cb.reset_timeout
      · simp only [hOpen, hElapsed, if_true, if_pos]
        intro _
        have hz := reachable_open_countersZero cb es h hOpen
        simpa [countersZero] using hz
      · intro hne
        simp [hOpen, hElapsed] at hne
    · intro hne
      simp [hOpen] at hne
  · unfold guard guardOpenCheck guardRun
    by_cases hOpen : es.state = CircuitBreakerState.OPEN
    · by_cases hElapsed : now - es.last_failure_time > cb.reset_timeout
      · simp only [hOpen, hElapsed, if_true, if_pos]
        cases callSucceeds with
        | true =>
          intro _
          simp [reset, countersZero]
        | false =>
          simp only [Bool.false_eq_true, if_false]
          split
          next htc =>
            intro _
            simp [trip, countersZero]
          next htc =>
            intro hne
            simp at hne
      · simp only [hOpen, hElapsed, if_false, if_pos]
        intro hne
        simp at hne
        exact absurd hOpen hne
    · simp only [hOpen, if_neg, if_false, if_true]
      cases callSucceeds with
      | true =>
        simp only [if_true]
        split
        next hHalf =>
          intro _
          simp [reset, countersZero]
        next hHalf =>
          intro hne
          simp at hne
      | false =>
        simp only [Bool.false_eq_true, if_false]
        split
        next htc =>
          intro _
          simp [trip, countersZero]
        next htc =>
          intro hne
          simp at hne

/-- Witness for C1 at a concrete breaker, the fresh endpoint state, and a
concrete failing call. -/
theorem circuit_breaker_transition_resets_counters_witness :
    ((guardOpenCheck ⟨1, 30, 1/2, 10⟩ EndpointState.initial 5).2.state ≠
        EndpointState.initial.state →
      countersZero (guardOpenCheck ⟨1, 30, 1/2, 10⟩ EndpointState.initial 5).2) ∧
      ((guard ⟨1, 30, 1/2, 10⟩ EndpointState.initial 5 false).2.state ≠
          (guardOpenCheck ⟨1, 30, 1/2, 10⟩ EndpointState.initial 5).2.state →
        countersZero (guard ⟨1, 30, 1/2, 10⟩ EndpointState.initial 5 false).2) :=
  circuit_breaker_transition_resets_counters ⟨1, 30, 1/2, 10⟩
    EndpointState.initial ReachableEndpointState.init 5 false

/-- Concrete breaker used by the C2 counterexample. -/
def cbC2 : CircuitBreaker := ⟨1, 30, 1/2, 10⟩

/-- Concrete OPEN endpoint state used by the C2 counterexample: the state
produced by a single failing guarded call at time 0 on a breaker with
failure_threshold 1. -/
def esC2 : EndpointState :=
  { state := CircuitBreakerState.OPEN
    failures := 0
    consecutive_failures := 0
    last_failure_time := 0
    successes := 0
    requests := 0 }

/-- Counterexample to C2: at elapsed time exactly equal to reset_timeout
(now = 30, last_failure_time = 0, reset_timeout = 30) the claim says the
breaker transitions to HALF_OPEN and lets the call through, but the code
tests now - last_failure_time > reset_timeout strictly and rejects.  The
state is reachable by an actual guard call sequence. -/
theorem circuit_breaker_open_boundary_counterexample :
    ReachableEndpointState cbC2 esC2 ∧
      esC2.state = CircuitBreakerState.OPEN ∧
      (30 : ℚ) - esC2.last_failure_time ≥ cbC2.reset_timeout ∧
      (∀ callSucceeds, guard cbC2 esC2 30 callSucceeds =
        (GuardOutcome.rejected, esC2)) := by
  have hoc : guardOpenCheck cbC2 esC2 30 = (false, esC2) := by
    have hngt : ¬((30 : ℚ) - esC2.last_failure_time > cbC2.reset_timeout) := by
      norm_num [esC2, cbC2]
    unfold guardOpenCheck
    rw [if_pos (show esC2.state = CircuitBreakerState.OPEN from rfl), if_neg hngt]
  refine ⟨?_, rfl, by norm_num [esC2, cbC2], ?_⟩
  · have h1 : ReachableEndpointState cbC2
        (guard cbC2 EndpointState.initial 0 false).2 :=
      ReachableEndpointState.step _ 0 false ReachableEndpointState.init
    have h2 : (guard cbC2 EndpointState.initial 0 false).2 = esC2 := by
      simp [guard, guardOpenCheck, guardRun, EndpointState.initial, trip, esC2,
        tripCondition, cbC2]
    exact h2 ▸ h1
  · intro callSucceeds
    unfold guard
    rw [hoc]
    simp

/-- C2 as amended: for an endpoint in the OPEN state, a guard call at
elapsed time at most reset_timeout (not strictly less) is rejected with the
state unchanged and the guarded call never runs; a guard call at elapsed
time strictly greater than reset_timeout moves the endpoint to HALF_OPEN
and lets exactly that one call through (its outcome decides the result, and
the endpoint never stays HALF_OPEN afterwards). -/
theorem circuit_breaker_open_guard (cb : CircuitBreaker) (es : EndpointState)
    (now : ℚ) (hOpen : es.state = CircuitBreakerState.OPEN) :
    (now - es.last_failure_time ≤ cb.reset_timeout →
      ∀ callSucceeds, guard cb es now callSucceeds = (GuardOutcome.rejected, es)) ∧
      (now - es.last_failure_time > cb.reset_timeout →
        ∀ callSucceeds,
          (guardOpenCheck cb es now).2.state = CircuitBreakerState.HALF_OPEN ∧
            (guard cb es now callSucceeds).1 =
              (if callSucceeds then GuardOutcome.success
                else GuardOutcome.failureReraised) ∧
            (guard cb es now callSucceeds).2.state ≠
              CircuitBreakerState.HALF_OPEN) := by
  constructor
  · intro hElapsed callSucceeds
    have hngt : ¬(now - es.last_failure_time > cb.reset_timeout) := not_lt.mpr hElapsed
    unfold guard guardOpenCheck
    simp [hOpen, hngt]
  · intro hElapsed callSucceeds
    refine ⟨?_, ?_, ?_⟩
    · unfold guardOpenCheck
      simp [hOpen, hElapsed]
    · unfold guard guardOpenCheck guardRun
      cases callSucceeds with
      | false =>
        simp only [hOpen, hElapsed, if_true, if_pos, Bool.false_eq_true, if_false]
        split
        next => rfl
        next => rfl
      | true =>
        simp [hOpen, hElapsed]
    · unfold guard guardOpenCheck guardRun
      cases callSucceeds with
      | false =>
        simp only [hOpen, hElapsed, if_true, if_pos, Bool.false_eq_true, if_false]
        split
        next htc => simp [trip]
        next htc => exact absurd (Or.inl rfl) htc
      | true =>
        simp [hOpen, hElapsed, reset]

/-- Witness for C2 as amended: a concrete OPEN endpoint at elapsed time 31,
strictly past the reset timeout of 30. -/
theorem circuit_breaker_open_guard_witness :
    ((31 : ℚ) - esC2.last_failure_time ≤ cbC2.reset_timeout →
      ∀ callSucceeds, guard cbC2 esC2 31 callSucceeds = (GuardOutcome.rejected, esC2)) ∧
      ((31 : ℚ) - esC2.last_failure_time > cbC2.reset_timeout →
        ∀ callSucceeds,
          (guardOpenCheck cbC2 esC2 31).2.state = CircuitBreakerState.HALF_OPEN ∧
            (guard cbC2 esC2 31 callSucceeds).1 =
              (if callSucceeds then GuardOutcome.success
                else GuardOutcome.failureReraised) ∧
            (guard cbC2 esC2 31 callSucceeds).2.state ≠
              CircuitBreakerState.HALF_OPEN) :=
  circuit_breaker_open_guard cbC2 esC2 31 (by decide)

/-- C3: when the guarded call was allowed to run and fails, the breaker re-raises
the original exception, increments failures and consecutive_failures (and
requests, counted on entry), and trips to OPEN exactly when the trip
condition holds of the incremented counters: the state was HALF_OPEN, or
consecutive_failures reached failure_threshold, or at least
min_requests_for_rate_calc requests were seen with a failure rate at least
failure_rate_threshold.  Tripping resets every counter and stamps
last_failure_time with the current time. -/
theorem circuit_breaker_failure_reraise_and_trip
    (cb : CircuitBreaker) (es : EndpointState) (now : ℚ)
    (hAdmit : (guardOpenCheck cb es now).1 = true) :
    let esIncr : EndpointState :=
      { state := (guardOpenCheck cb es now).2.state
        failures := es.failures + 1
        consecutive_failures := es.consecutive_failures + 1
        last_failure_time := es.last_failure_time
        successes := es.successes
        requests := es.requests + 1 }
    (guard cb es now false).1 = GuardOutcome.failureReraised ∧
      (tripCondition cb esIncr →
        (guard cb es now false).2 =
          { state := CircuitBreakerState.OPEN, failures := 0,
            consecutive_failures := 0, last_failure_time := now,
            successes := 0, requests := 0 }) ∧
      (¬tripCondition cb esIncr → (guard cb es now false).2 = esIncr) ∧
      ((guard cb es now false).2.state = CircuitBreakerState.OPEN ↔
        tripCondition cb esIncr) := by
  intro esIncr
  by_cases hOpen : es.state = CircuitBreakerState.OPEN
  · by_cases hElapsed : now - es.last_failure_time > cb.reset_timeout
    · have hoc : guardOpenCheck cb es now =
          (true, { es with state := CircuitBreakerState.HALF_OPEN }) := by
        unfold guardOpenCheck
        rw [if_pos hOpen, if_pos hElapsed]
      have hcond : tripCondition cb esIncr := by
        left
        show (guardOpenCheck cb es now).2.state = CircuitBreakerState.HALF_OPEN
        rw [hoc]
      have hguard : guard cb es now false =
          (GuardOutcome.failureReraised,
            { state := CircuitBreakerState.OPEN, failures := 0,
              consecutive_failures := 0, last_failure_time := now,
              successes := 0, requests := 0 }) := by
        unfold guard
        rw [hoc]
        unfold guardRun
        simp only [if_pos, Bool.false_eq_true, if_false, if_true]
        split
        next => rfl
        next htc => exact absurd (Or.inl rfl) htc
      rw [hguard]
      exact ⟨rfl, fun _ => rfl, fun hn => absurd hcond hn, by simp [hcond]⟩
    · exfalso
      unfold guardOpenCheck at hAdmit
      rw [if_pos hOpen, if_neg hElapsed] at hAdmit
      exact Bool.false_ne_true hAdmit
  · have hoc : guardOpenCheck cb es now = (true, es) := by
      unfold guardOpenCheck
      rw [if_neg hOpen]
    have hIncr : esIncr =
        { es with
          failures := es.failures + 1
          consecutive_failures := es.consecutive_failures + 1
          requests := es.requests + 1 } := by
      simp only [esIncr]
      rw [hoc]
    have hguard : guard cb es now false =
        (GuardOutcome.failureReraised,
          if tripCondition cb esIncr then
            { state := CircuitBreakerState.OPEN, failures := 0,
              consecutive_failures := 0, last_failure_time := now,
              successes := 0, requests := 0 }
          else esIncr) := by
      unfold guard
      rw [hoc]
      unfold guardRun
      simp only [if_pos, Bool.false_eq_true, if_false, if_true]
      rw [hIncr]
      split
      next htc => rfl
      next htc => rfl
    rw [hguard]
    refine ⟨rfl, fun hc => by simp [hc], fun hn => by simp [hn], ?_⟩
    by_cases hc : tripCondition cb esIncr
    · simp [hc]
    · have hstate : esIncr.state = es.state := by rw [hIncr]
      simp [hc, hstate, hOpen]

/-- Witness for C3: a fresh CLOSED endpoint, failure_threshold 1, failing
call at time 0; the call is allowed to run, the exception re-raised, and the
breaker trips. -/
theorem circuit_breaker_failure_reraise_and_trip_witness :
    let cb : CircuitBreaker := ⟨1, 30, 1/2, 10⟩
    let esIncr : EndpointState :=
      { state := (guardOpenCheck cb EndpointState.initial 0).2.state
        failures := EndpointState.initial.failures + 1
        consecutive_failures := EndpointState.initial.consecutive_failures + 1
        last_failure_time := EndpointState.initial.last_failure_time
        successes := EndpointState.initial.successes
        requests := EndpointState.initial.requests + 1 }
    (guard cb EndpointState.initial 0 false).1 = GuardOutcome.failureReraised ∧
      (tripCondition cb esIncr →
        (guard cb EndpointState.initial 0 false).2 =
          { state := CircuitBreakerState.OPEN, failures := 0,
            consecutive_failures := 0, last_failure_time := 0,
            successes := 0, requests := 0 }) ∧
      (¬tripCondition cb esIncr →
        (guard cb EndpointState.initial 0 false).2 = esIncr) ∧
      ((guard cb EndpointState.initial 0 false).2.state =
          CircuitBreakerState.OPEN ↔ tripCondition cb esIncr) :=
  circuit_breaker_failure_reraise_and_trip ⟨1, 30, 1/2, 10⟩
    EndpointState.initial 0 (by decide)

/-! ## Dead letter queue (services/dead_letter_queue.py)

The durable storage collaborator exposes append, read_all and delete_all
over a named list; the model carries the stored list explicitly and passes
it through each operation.  Payloads are an arbitrary type J.  Entries are
the dicts built by send, which always carry the three fields, so the
dict.get defaults of replay never fire. -/

/-- One stored DLQ message dict: message payload, retry_count and
next_retry_at. -/
structure DlqEntry (J : Type) where
  message : J
  retry_count : ℕ
  next_retry_at : ℚ
  deriving DecidableEq, Repr

/-- Configuration of DeadLetterQueue.__init__ after its normalization:
base_backoff_seconds is clamped to at least 0 and max_backoff_seconds to at
least base_backoff_seconds. -/
structure DlqConfig where
  max_retries : ℕ
  base_backoff_seconds : ℚ
  max_backoff_seconds : ℚ
  deriving Repr

/-- DeadLetterQueue.__init__: clamp the backoff parameters. -/
def mkDlqConfig (max_retries : ℕ) (base_backoff_seconds : ℚ)
    (max_backoff_seconds : ℚ) : DlqConfig :=
  { max_retries := max_retries
    base_backoff_seconds := max 0 base_backoff_seconds
    max_backoff_seconds := max (max 0 base_backoff_seconds) max_backoff_seconds }

/-- DeadLetterQueue._compute_next_retry_at: exponential backoff capped at
max_backoff_seconds, from the current wall-clock time now. -/
def computeNextRetryAt (cfg : DlqConfig) (now : ℚ) (retry_count : ℕ) : ℚ :=
  now + min (cfg.base_backoff_seconds * 2 ^ retry_count) cfg.max_backoff_seconds

/-- DeadLetterQueue.send: raise ValueError on a negative retry_count before
touching storage, otherwise append one entry scheduled at the explicit
next_retry_at when given, else at the computed backoff.  The result is the
stored list after the call together with the raised error, if any; a raise
happens before the append, so the stored list is returned unchanged.  The
guard makes Int.toNat exact on the stored count. -/
def dlqSend {J : Type} (cfg : DlqConfig) (now : ℚ) (storage : List (DlqEntry J))
    (message : J) (retry_count : ℤ) (next_retry_at : Option ℚ) :
    List (DlqEntry J) × Option String :=
  if retry_count < 0 then
    (storage, some ("retry_count cannot be negative"))
  else
    let scheduled_for :=
      match next_retry_at with
      | some t => t
      | none => computeNextRetryAt cfg now retry_count.toNat
    let entry : DlqEntry J :=
      { message := message
        retry_count := retry_count.toNat
        next_retry_at := scheduled_for }
    (storage ++ [entry], none)

/-- Classifier for the discard branch of replay: retry_count has reached
max_retries. -/
def dlqMaxedOut {J : Type} (cfg : DlqConfig) (e : DlqEntry J) : Bool :=
  decide (e.retry_count ≥ cfg.max_retries)

/-- Classifier for the ready branch of replay: not maxed out and due now. -/
def dlqReady {J : Type} (cfg : DlqConfig) (now : ℚ) (e : DlqEntry J) : Bool :=
  decide (e.retry_count < cfg.max_retries) && decide (e.next_retry_at ≤ now)

/-- Classifier for the pending branch of replay: not maxed out and due in
the future. -/
def dlqPending {J : Type} (cfg : DlqConfig) (now : ℚ) (e : DlqEntry J) : Bool :=
  decide (e.retry_count < cfg.max_retries) && decide (now < e.next_retry_at)

/-- The ready-message transform of replay: retry_count incremented and
next_retry_at recomputed from the incremented count. -/
def dlqRequeue {J : Type} (cfg : DlqConfig) (now : ℚ) (e : DlqEntry J) :
    DlqEntry J :=
  { message := e.message
    retry_count := e.retry_count + 1
    next_retry_at := computeNextRetryAt cfg now (e.retry_count + 1) }

/-- Loop body of DeadLetterQueue.replay: drop maxed-out entries, append due
entries (transformed) to the ready list, keep future entries unchanged. -/
def replayClassify {J : Type} (cfg : DlqConfig) (now : ℚ)
    (acc : List (DlqEntry J) × List (DlqEntry J)) (msg : DlqEntry J) :
    List (DlqEntry J) × List (DlqEntry J) :=
  if msg.retry_count ≥ cfg.max_retries then acc
  else if msg.next_retry_at ≤ now then
    (acc.1 ++ [dlqRequeue cfg now msg], acc.2)
  else
    (acc.1, acc.2 ++ [msg])

/-- DeadLetterQueue.replay: read the whole list (returning immediately when
empty), clear storage, classify every entry in order, re-append the pending
entries.  The result is the pair of the returned ready messages and the
storage contents after the call. -/
def dlqReplay {J : Type} (cfg : DlqConfig) (now : ℚ)
    (storage : List (DlqEntry J)) : List (DlqEntry J) × List (DlqEntry J) :=
  if storage.isEmpty then ([], storage)
  else storage.foldl (replayClassify cfg now) ([], [])

/-- Folding the replay loop body over a list extends both accumulator lists
with the mapped ready entries and the pending entries, in order. -/
theorem replayClassify_foldl {J : Type} (cfg : DlqConfig) (now : ℚ)
    (l : List (DlqEntry J)) (a b : List (DlqEntry J)) :
    l.foldl (replayClassify cfg now) (a, b) =
      (a ++ (l.filter (dlqReady cfg now)).map (dlqRequeue cfg now),
        b ++ l.filter (dlqPending cfg now)) := by
  induction l generalizing a b with
  | nil => simp
  | cons e rest ih =>
    simp only [List.foldl_cons, List.filter_cons]
    by_cases hmax : e.retry_count ≥ cfg.max_retries
    · have hstep : replayClassify cfg now (a, b) e = (a, b) := by
        unfold replayClassify
        rw [if_pos hmax]
      have hr : dlqReady cfg now e = false := by
        simp [dlqReady, not_lt.mpr hmax]
      have hp : dlqPending cfg now e = false := by
        simp [dlqPending, not_lt.mpr hmax]
      rw [hstep, ih]
      simp [hr, hp]
    · have hlt : e.retry_count < cfg.max_retries := lt_of_not_ge hmax
      by_cases hdue : e.next_retry_at ≤ now
      · have hstep : replayClassify cfg now (a, b) e =
            (a ++ [dlqRequeue cfg now e], b) := by
          unfold replayClassify
          rw [if_neg hmax, if_pos hdue]
        have hr : dlqReady cfg now e = true := by
          simp [dlqReady, hlt, hdue]
        have hp : dlqPending cfg now e = false := by
          simp [dlqPending, not_lt.mpr hdue]
        rw [hstep, ih]
        simp [hr, hp]
      · have hstep : replayClassify cfg now (a, b) e = (a, b ++ [e]) := by
          unfold replayClassify
          rw [if_neg hmax, if_neg hdue]
        have hr : dlqReady cfg now e = false := by
          simp [dlqReady, hdue]
        have hp : dlqPending cfg now e = true := by
          simp [dlqPending, hlt, lt_of_not_ge hdue]
        rw [hstep, ih]
        simp [hr, hp]

/-- Characterization of replay as filters over the stored list: the ready
result is the due, non-maxed entries transformed in order, and the new
storage contents are the future, non-maxed entries unchanged in order. -/
theorem dlqReplay_eq_filters {J : Type} (cfg : DlqConfig) (now : ℚ)
    (storage : List (DlqEntry J)) :
    dlqReplay cfg now storage =
      ((storage.filter (dlqReady cfg now)).map (dlqRequeue cfg now),
        storage.filter (dlqPending cfg now)) := by
  unfold dlqReplay
  by_cases hempty : storage.isEmpty
  · rw [if_pos hempty]
    rw [List.isEmpty_iff] at hempty
    subst hempty
    simp
  · rw [if_neg hempty, replayClassify_foldl]
    simp

/-- Every stored entry takes exactly one of the three replay dispositions,
so the list length splits into discarded, ready and pending counts. -/
theorem dlq_disposition_length {J : Type} (cfg : DlqConfig) (now : ℚ)
    (l : List (DlqEntry J)) :
    l.length = (l.filter (dlqMaxedOut cfg)).length
      + (l.filter (dlqReady cfg now)).length
      + (l.filter (dlqPending cfg now)).length := by
  induction l with
  | nil => simp
  | cons e rest ih =>
    simp only [List.filter_cons, List.length_cons]
    by_cases hmax : e.retry_count ≥ cfg.max_retries
    · have hm : dlqMaxedOut cfg e = true := by simp [dlqMaxedOut, hmax]
      have hr : dlqReady cfg now e = false := by
        simp [dlqReady, not_lt.mpr hmax]
      have hp : dlqPending cfg now e = false := by
        simp [dlqPending, not_lt.mpr hmax]
      simp only [hm, hr, hp, if_true, if_false, Bool.false_eq_true,
        List.length_cons]
      omega
    · have hm : dlqMaxedOut cfg e = false := by simp [dlqMaxedOut, hmax]
      have hlt : e.retry_count < cfg.max_retries := lt_of_not_ge hmax
      by_cases hdue : e.next_retry_at ≤ now
      · have hr : dlqReady cfg now e = true := by simp [dlqReady, hlt, hdue]
        have hp : dlqPending cfg now e = false := by
          simp [dlqPending, not_lt.mpr hdue]
        simp only [hm, hr, hp, if_true, if_false, Bool.false_eq_true,
          List.length_cons]
        omega
      · have hr : dlqReady cfg now e = false := by simp [dlqReady, hdue]
        have hp : dlqPending cfg now e = true := by
          simp [dlqPending, hlt, lt_of_not_ge hdue]
        simp only [hm, hr, hp, if_true, if_false, Bool.false_eq_true,
          List.length_cons]
        omega

/-- C7: replay reads and clears the whole stored list, returns as ready
exactly the due non-maxed entries, in order, with retry_count incremented
and next_retry_at recomputed as now plus min(base * 2 ^ retry_count,
max_backoff) of the incremented count, re-stores exactly the future-dated
non-maxed entries unchanged, and discards each maxed-out entry exactly
once: it is never returned as ready and never re-stored. -/
theorem dlq_replay_partition {J : Type} (cfg : DlqConfig) (now : ℚ)
    (storage : List (DlqEntry J)) :
    (dlqReplay cfg now storage).1 =
        (storage.filter (dlqReady cfg now)).map (dlqRequeue cfg now) ∧
      (dlqReplay cfg now storage).2 = storage.filter (dlqPending cfg now) ∧
      storage.length = (storage.filter (dlqMaxedOut cfg)).length
        + (dlqReplay cfg now storage).1.length
        + (dlqReplay cfg now storage).2.length ∧
      (∀ e ∈ storage, dlqMaxedOut cfg e = true →
        e ∉ (dlqReplay cfg now storage).2) := by
  have hchar := dlqReplay_eq_filters cfg now storage
  refine ⟨by rw [hchar], by rw [hchar], ?_, ?_⟩
  · rw [hchar]
    simpa using dlq_disposition_length cfg now storage
  · intro e hmem hmax
    rw [hchar]
    simp only [List.mem_filter, dlqPending, dlqMaxedOut] at hmax ⊢
    intro hc
    have h1 := of_decide_eq_true hmax
    have h2 := of_decide_eq_true (Bool.and_elim_left hc.2)
    omega

/-- Concrete DLQ configuration for witnesses: max_retries 2, base backoff
1 second, max backoff 300 seconds. -/
def cfgW : DlqConfig := mkDlqConfig 2 1 300

/-- Concrete stored list for the C7 witness: one maxed-out entry, one due
entry, one future entry. -/
def stW : List (DlqEntry ℕ) := [⟨0, 2, 50⟩, ⟨1, 0, 50⟩, ⟨2, 1, 200⟩]

/-- Witness for C7: the maxed-out entry of a concrete stored list is not
re-stored by replay. -/
theorem dlq_replay_partition_witness :
    (⟨0, 2, 50⟩ : DlqEntry ℕ) ∉ (dlqReplay cfgW 100 stW).2 :=
  (dlq_replay_partition cfgW 100 stW).2.2.2 ⟨0, 2, 50⟩
    (List.mem_cons_self _ _) (by decide)

/-- Concrete DLQ configuration for C8: max_retries 5. -/
def cfg8 : DlqConfig := mkDlqConfig 5 1 300

/-- Concrete stored list for the C8 counterexample: a single maxed-out
entry whose next_retry_at lies in the future. -/
def st8 : List (DlqEntry ℕ) := [⟨7, 5, 10⟩]

/-- Counterexample to C8: a stored list whose only entry has a future
next_retry_at (no ready entries) but retry_count = max_retries.  replay
returns the empty ready list, yet discards the entry, so the backlog drops
from 1 to 0 instead of staying unchanged. -/
theorem dlq_replay_pending_backlog_counterexample :
    (∀ e ∈ st8, (0 : ℚ) < e.next_retry_at) ∧
      dlqReplay cfg8 0 st8 = ([], []) ∧
      st8.length = 1 ∧
      (dlqReplay cfg8 0 st8).2.length ≠ st8.length := by
  have hready : dlqReady cfg8 0 (⟨7, 5, 10⟩ : DlqEntry ℕ) = false := by
    simp [dlqReady, cfg8, mkDlqConfig]
  have hpending : dlqPending cfg8 0 (⟨7, 5, 10⟩ : DlqEntry ℕ) = false := by
    simp [dlqPending, cfg8, mkDlqConfig]
  have hrep : dlqReplay cfg8 0 st8 = ([], []) := by
    rw [dlqReplay_eq_filters]
    simp [st8, hready, hpending]
  refine ⟨?_, hrep, rfl, ?_⟩
  · intro e he
    simp only [st8, List.mem_singleton] at he
    subst he
    norm_num
  · rw [hrep]
    simp [st8]

/-- C8 as amended: when every stored entry is pending (next_retry_at in the
future) and none has reached max_retries, replay returns the empty list and
re-stores the whole list unchanged, so the backlog count is unchanged and
replay is idempotent on pending entries. -/
theorem dlq_replay_no_ready_idempotent {J : Type} (cfg : DlqConfig) (now : ℚ)
    (storage : List (DlqEntry J))
    (h : ∀ e ∈ storage, now < e.next_retry_at ∧ e.retry_count < cfg.max_retries) :
    dlqReplay cfg now storage = ([], storage) := by
  rw [dlqReplay_eq_filters]
  have h1 : storage.filter (dlqReady cfg now) = [] := by
    rw [List.filter_eq_nil_iff]
    intro e he
    simp [dlqReady, not_le.mpr (h e he).1]
  have h2 : storage.filter (dlqPending cfg now) = storage := by
    rw [List.filter_eq_self]
    intro e he
    simp [dlqPending, (h e he).1, (h e he).2]
  rw [h1, h2]
  simp

/-- Witness for C8 as amended: one pending entry below max_retries survives
replay unchanged and the ready list is empty. -/
theorem dlq_replay_no_ready_idempotent_witness :
    dlqReplay cfg8 0 [(⟨7, 0, 10⟩ : DlqEntry ℕ)] = ([], [⟨7, 0, 10⟩]) :=
  dlq_replay_no_ready_idempotent cfg8 0 [⟨7, 0, 10⟩] (by
    intro e he
    simp only [List.mem_singleton] at he
    subst he
    refine ⟨by norm_num, by norm_num [cfg8, mkDlqConfig]⟩)

/-- C10: send called with a negative retry_count raises ValueError and
appends nothing: the stored list is returned exactly as it was. -/
theorem dlq_send_negative_retry_count {J : Type} (cfg : DlqConfig) (now : ℚ)
    (storage : List (DlqEntry J)) (message : J) (retry_count : ℤ)
    (next_retry_at : Option ℚ) (h : retry_count < 0) :
    dlqSend cfg now storage message retry_count next_retry_at =
      (storage, some ("retry_count cannot be negative")) := by
  unfold dlqSend
  rw [if_pos h]

/-- Witness for C10 at retry_count -1 on an empty stored list. -/
theorem dlq_send_negative_retry_count_witness :
    dlqSend cfg8 0 ([] : List (DlqEntry ℕ)) 7 (-1) none =
      ([], some ("retry_count cannot be negative")) :=
  dlq_send_negative_retry_count cfg8 0 [] 7 (-1) none (by norm_num)

/-! ## Listener (runtime/listener.py)

MessageService streams websocket frames into a bounded asyncio.Queue with
explicit backpressure.  The model carries the queue contents, the list of
payloads sent to the DLQ, and the number of task_done marks as explicit
state.  Concurrent consumers are modelled by consume events interleaved
with frame events, and by a Boolean oracle per put attempt saying whether a
consumer freed the head slot during the timed wait (only relevant when the
queue is full; a put into a non-full queue succeeds at once). -/

/-- Queue overflow handling strategy (class BackpressurePolicy). -/
inductive BackpressurePolicy where
  | FAIL_FAST
  | DROP_OLDEST
  deriving DecidableEq, Repr

/-- One queued item: the raw frame and its enqueue timestamp
(runtime/models.QueuedMessage). -/
structure QueuedMessage where
  raw : String
  enqueued_at : ℚ
  deriving DecidableEq, Repr

/-- Payload shape produced by MessageService._parse_for_dlq: the JSON value
when the raw frame parses, else the frame wrapped in a one-field raw dict. -/
inductive DlqForm (J : Type) where
  | parsed (value : J)
  | wrappedRaw (raw : String)
  deriving DecidableEq, Repr

/-- MessageService._parse_for_dlq over an abstract json.loads, which
returns none exactly when json.loads raises JSONDecodeError. -/
def parseForDlq {J : Type} (jsonLoads : String → Option J) (raw : String) :
    DlqForm J :=
  match jsonLoads raw with
  | some v => DlqForm.parsed v
  | none => DlqForm.wrappedRaw raw

/-- Configuration of MessageService.__init__: the queue capacity (a bounded
queue, maxsize at least 1), the backpressure policy, whether a DLQ is
configured, and the abstract JSON parser. -/
structure ListenerConfig (J : Type) where
  capacity : ℕ
  policy : BackpressurePolicy
  hasDlq : Bool
  jsonLoads : String → Option J

/-- Observable state threaded through the listener: queue contents in FIFO
order (head is oldest), payloads forwarded to the DLQ in order, and the
number of task_done marks issued by the listener itself. -/
structure ListenerState (J : Type) where
  queue : List QueuedMessage
  dlqSends : List (DlqForm J)
  taskDoneCount : ℕ

/-- One asyncio.wait_for(queue.put(m), timeout) attempt: immediate success
when a slot is free; success consuming the oldest item when a consumer
frees the head slot during the wait; TimeoutError (none) otherwise. -/
def tryPut (capacity : ℕ) (q : List QueuedMessage) (m : QueuedMessage)
    (freedDuringWait : Bool) : Option (List QueuedMessage) :=
  if q.length < capacity then some (q ++ [m])
  else if freedDuringWait then some (q.drop 1 ++ [m])
  else none

/-- MessageService._handle_enqueue_timeout: under FAIL_FAST report failure;
under DROP_OLDEST pop the oldest queued item with get_nowait (reporting
failure when the queue is empty), mark it consumed with task_done, and
retry the put exactly once. -/
def handleEnqueueTimeout {J : Type} (cfg : ListenerConfig J)
    (s : ListenerState J) (m : QueuedMessage) (freedDuringRetry : Bool) :
    Bool × ListenerState J :=
  match cfg.policy with
  | BackpressurePolicy.FAIL_FAST => (false, s)
  | BackpressurePolicy.DROP_OLDEST =>
    match s.queue with
    | [] => (false, s)
    | _ :: rest =>
      let s1 : ListenerState J :=
        { s with queue := rest, taskDoneCount := s.taskDoneCount + 1 }
      match tryPut cfg.capacity s1.queue m freedDuringRetry with
      | some q2 => (true, { s1 with queue := q2 })
      | none => (false, s1)

/-- MessageService._enqueue_with_backpressure: try the put; on timeout defer
to the timeout handler. -/
def enqueueWithBackpressure {J : Type} (cfg : ListenerConfig J)
    (s : ListenerState J) (m : QueuedMessage) (freed1 freed2 : Bool) :
    Bool × ListenerState J :=
  match tryPut cfg.capacity s.queue m freed1 with
  | some q1 => (true, { s with queue := q1 })
  | none => handleEnqueueTimeout cfg s m freed2

/-- Body of MessageService.listen for one incoming frame: build the queued
message, enqueue with backpressure; when not enqueued, forward the parsed
frame to the DLQ if one is configured, else drop it silently. -/
def listenStep {J : Type} (cfg : ListenerConfig J) (s : ListenerState J)
    (raw : String) (t : ℚ) (freed1 freed2 : Bool) : ListenerState J :=
  let r := enqueueWithBackpressure cfg s ⟨raw, t⟩ freed1 freed2
  if r.1 then r.2
  else if cfg.hasDlq then
    { r.2 with dlqSends := r.2.dlqSends ++ [parseForDlq cfg.jsonLoads raw] }
  else r.2

/-- Events of a listener trace: an incoming frame (with its timestamp and
the two consumer-freed-a-slot oracles), or a worker consuming the oldest
queued item. -/
inductive ListenEvent where
  | frame (raw : String) (t : ℚ) (freed1 freed2 : Bool)
  | consume

/-- One trace event applied to the state. -/
def stepEvent {J : Type} (cfg : ListenerConfig J) (s : ListenerState J) :
    ListenEvent → ListenerState J
  | ListenEvent.frame raw t freed1 freed2 => listenStep cfg s raw t freed1 freed2
  | ListenEvent.consume => { s with queue := s.queue.drop 1 }

/-- A whole trace applied to the state. -/
def runEvents {J : Type} (cfg : ListenerConfig J) (s : ListenerState J)
    (events : List ListenEvent) : ListenerState J :=
  events.foldl (stepEvent cfg) s

/-- Whether the enqueue of one frame reported success. -/
def frameAccepted {J : Type} (cfg : ListenerConfig J) (s : ListenerState J)
    (raw : String) (t : ℚ) (freed1 freed2 : Bool) : Bool :=
  (enqueueWithBackpressure cfg s ⟨raw, t⟩ freed1 freed2).1

/-- The raw frames of a trace whose enqueue reported failure, in order. -/
def droppedFrames {J : Type} (cfg : ListenerConfig J) (s : ListenerState J) :
    List ListenEvent → List String
  | [] => []
  | e :: rest =>
    match e with
    | ListenEvent.frame raw t freed1 freed2 =>
      (if frameAccepted cfg s raw t freed1 freed2 then [] else [raw])
        ++ droppedFrames cfg (stepEvent cfg s e) rest
    | ListenEvent.consume => droppedFrames cfg (stepEvent cfg s e) rest

/-- A successful put attempt never grows the queue past a positive
capacity. -/
theorem tryPut_length (capacity : ℕ) (q : List QueuedMessage)
    (m : QueuedMessage) (freed : Bool) (hcap : 1 ≤ capacity)
    (h : q.length ≤ capacity) (q2 : List QueuedMessage)
    (he : tryPut capacity q m freed = some q2) : q2.length ≤ capacity := by
  unfold tryPut at he
  split at he
  next h1 =>
    cases he
    simp only [List.length_append, List.length_singleton]
    omega
  next h1 =>
    split at he
    next hf =>
      cases he
      simp only [List.length_append, List.length_singleton, List.length_drop]
      omega
    next hf => cases he

/-- The enqueue path never touches the DLQ trace. -/
theorem enqueue_dlqSends {J : Type} (cfg : ListenerConfig J)
    (s : ListenerState J) (m : QueuedMessage) (freed1 freed2 : Bool) :
    (enqueueWithBackpressure cfg s m freed1 freed2).2.dlqSends = s.dlqSends := by
  unfold enqueueWithBackpressure handleEnqueueTimeout
  cases h1 : tryPut cfg.capacity s.queue m freed1 with
  | some q1 =>
    simp only [h1]
  | none =>
    simp only [h1]
    cases hpol : cfg.policy with
    | FAIL_FAST => rfl
    | DROP_OLDEST =>
      cases hq : s.queue with
      | nil => rfl
      | cons q0 qs =>
        cases h2 : tryPut cfg.capacity qs m freed2 with
        | some q2 => simp only [h2]
        | none => simp only [h2]

/-- The queue after one listen step is the queue after the enqueue attempt:
the DLQ branch only appends to the DLQ trace. -/
theorem listenStep_queue {J : Type} (cfg : ListenerConfig J)
    (s : ListenerState J) (raw : String) (t : ℚ) (freed1 freed2 : Bool) :
    (listenStep cfg s raw t freed1 freed2).queue =
      (enqueueWithBackpressure cfg s ⟨raw, t⟩ freed1 freed2).2.queue := by
  simp only [listenStep]
  split
  · rfl
  · split
    · rfl
    · rfl

/-- One listen step appends to the DLQ trace exactly the parsed frame when
the enqueue failed and a DLQ is configured, and nothing otherwise. -/
theorem listenStep_dlqSends {J : Type} (cfg : ListenerConfig J)
    (s : ListenerState J) (raw : String) (t : ℚ) (freed1 freed2 : Bool) :
    (listenStep cfg s raw t freed1 freed2).dlqSends =
      s.dlqSends ++
        (if frameAccepted cfg s raw t freed1 freed2 then []
          else if cfg.hasDlq then [parseForDlq cfg.jsonLoads raw] else []) := by
  simp only [listenStep, frameAccepted]
  have hd := enqueue_dlqSends cfg s ⟨raw, t⟩ freed1 freed2
  by_cases hacc : (enqueueWithBackpressure cfg s ⟨raw, t⟩ freed1 freed2).1 = true
  · rw [if_pos hacc, if_pos hacc, hd]
    simp
  · rw [if_neg hacc, if_neg hacc]
    cases hdlq : cfg.hasDlq with
    | true => simp [hdlq, hd]
    | false => simp [hdlq, hd]

/-- The enqueue attempt preserves a positive capacity bound on the queue. -/
theorem enqueue_queue_bound {J : Type} (cfg : ListenerConfig J)
    (hcap : 1 ≤ cfg.capacity) (s : ListenerState J) (m : QueuedMessage)
    (freed1 freed2 : Bool) (h : s.queue.length ≤ cfg.capacity) :
    (enqueueWithBackpressure cfg s m freed1 freed2).2.queue.length ≤
      cfg.capacity := by
  unfold enqueueWithBackpressure handleEnqueueTimeout
  cases h1 : tryPut cfg.capacity s.queue m freed1 with
  | some q1 =>
    simp only [h1]
    exact tryPut_length cfg.capacity s.queue m freed1 hcap h q1 h1
  | none =>
    simp only [h1]
    cases hpol : cfg.policy with
    | FAIL_FAST => exact h
    | DROP_OLDEST =>
      cases hq : s.queue with
      | nil => exact h
      | cons q0 qs =>
        have hqs : qs.length ≤ cfg.capacity := by
          rw [hq] at h
          simp only [List.length_cons] at h
          omega
        cases h2 : tryPut cfg.capacity qs m freed2 with
        | some q2 =>
          simp only [h2]
          exact tryPut_length cfg.capacity qs m freed2 hcap hqs q2 h2
        | none =>
          simp only [h2]
          exact hqs

/-- Every trace event preserves a positive capacity bound on the queue. -/
theorem stepEvent_queue_bound {J : Type} (cfg : ListenerConfig J)
    (hcap : 1 ≤ cfg.capacity) (s : ListenerState J) (e : ListenEvent)
    (h : s.queue.length ≤ cfg.capacity) :
    (stepEvent cfg s e).queue.length ≤ cfg.capacity := by
  cases e with
  | consume =>
    simp only [stepEvent, List.length_drop]
    omega
  | frame raw t freed1 freed2 =>
    simp only [stepEvent]
    rw [listenStep_queue]
    exact enqueue_queue_bound cfg hcap s ⟨raw, t⟩ freed1 freed2 h

/-- A whole trace preserves a positive capacity bound on the queue. -/
theorem runEvents_queue_bound {J : Type} (cfg : ListenerConfig J)
    (hcap : 1 ≤ cfg.capacity) (events : List ListenEvent) :
    ∀ s : ListenerState J, s.queue.length ≤ cfg.capacity →
      (runEvents cfg s events).queue.length ≤ cfg.capacity := by
  induction events with
  | nil => intro s h; exact h
  | cons e rest ih =>
    intro s h
    rw [runEvents, List.foldl_cons]
    exact ih _ (stepEvent_queue_bound cfg hcap s e h)

/-- Over a whole trace the DLQ receives, in order, exactly the parsed forms
of the frames whose enqueue failed, when a DLQ is configured, and nothing
otherwise. -/
theorem runEvents_dlqSends {J : Type} (cfg : ListenerConfig J)
    (events : List ListenEvent) :
    ∀ s : ListenerState J,
      (runEvents cfg s events).dlqSends =
        s.dlqSends ++
          (if cfg.hasDlq then
            (droppedFrames cfg s events).map (parseForDlq cfg.jsonLoads)
          else []) := by
  induction events with
  | nil =>
    intro s
    simp [runEvents, droppedFrames]
  | cons e rest ih =>
    intro s
    rw [runEvents, List.foldl_cons]
    rw [show List.foldl (stepEvent cfg) (stepEvent cfg s e) rest =
      runEvents cfg (stepEvent cfg s e) rest from rfl]
    rw [ih]
    cases e with
    | consume =>
      simp only [stepEvent, droppedFrames]
    | frame raw t freed1 freed2 =>
      simp only [stepEvent, droppedFrames]
      rw [listenStep_dlqSends cfg s raw t freed1 freed2]
      by_cases hacc : frameAccepted cfg s raw t freed1 freed2 = true
      · simp [hacc]
      · simp only [Bool.not_eq_true] at hacc
        simp only [hacc, Bool.false_eq_true, if_false]
        cases cfg.hasDlq with
        | true => simp
        | false => simp

/-- C5: under FAIL_FAST the queue never exceeds a positive capacity over
any trace of frame arrivals and consumer reads; the DLQ receives, exactly
once each and in order, the parsed form (JSON value, or the raw frame
wrapped) of precisely the frames whose enqueue failed, and receives nothing
when no DLQ is configured; and under FAIL_FAST a frame fails to enqueue
exactly when its single put attempt timed out, in which case the queue is
left untouched by that frame. -/
theorem listener_fail_fast_backpressure {J : Type} (cfg : ListenerConfig J)
    (hpol : cfg.policy = BackpressurePolicy.FAIL_FAST)
    (hcap : 1 ≤ cfg.capacity) (s : ListenerState J)
    (hq : s.queue.length ≤ cfg.capacity) (events : List ListenEvent) :
    (runEvents cfg s events).queue.length ≤ cfg.capacity ∧
      (cfg.hasDlq = true →
        (runEvents cfg s events).dlqSends =
          s.dlqSends ++
            (droppedFrames cfg s events).map (parseForDlq cfg.jsonLoads)) ∧
      (cfg.hasDlq = false →
        (runEvents cfg s events).dlqSends = s.dlqSends) ∧
      (∀ s2 : ListenerState J, ∀ raw t freed1 freed2,
        (frameAccepted cfg s2 raw t freed1 freed2 = false ↔
          tryPut cfg.capacity s2.queue ⟨raw, t⟩ freed1 = none) ∧
          (frameAccepted cfg s2 raw t freed1 freed2 = false →
            (listenStep cfg s2 raw t freed1 freed2).queue = s2.queue)) := by
  refine ⟨runEvents_queue_bound cfg hcap events s hq, ?_, ?_, ?_⟩
  · intro hdlq
    rw [runEvents_dlqSends cfg events s, if_pos hdlq]
  · intro hdlq
    rw [runEvents_dlqSends cfg events s, hdlq]
    simp
  · intro s2 raw t freed1 freed2
    have henq : ∀ hfail : tryPut cfg.capacity s2.queue ⟨raw, t⟩ freed1 = none,
        enqueueWithBackpressure cfg s2 ⟨raw, t⟩ freed1 freed2 = (false, s2) := by
      intro hfail
      unfold enqueueWithBackpressure handleEnqueueTimeout
      simp only [hfail, hpol]
    constructor
    · constructor
      · intro hfail
        unfold frameAccepted enqueueWithBackpressure at hfail
        cases h1 : tryPut cfg.capacity s2.queue ⟨raw, t⟩ freed1 with
        | some q1 =>
          rw [h1] at hfail
          simp at hfail
        | none => rfl
      · intro h1
        unfold frameAccepted
        rw [henq h1]
    · intro hfail
      have h1 : tryPut cfg.capacity s2.queue ⟨raw, t⟩ freed1 = none := by
        unfold frameAccepted enqueueWithBackpressure at hfail
        cases h1 : tryPut cfg.capacity s2.queue ⟨raw, t⟩ freed1 with
        | some q1 =>
          rw [h1] at hfail
          simp at hfail
        | none => rfl
      rw [listenStep_queue, henq h1]

/-- Concrete FAIL_FAST listener configuration for the C5 witness: capacity
1, DLQ configured, JSON parser that never parses. -/
def cfg5 : ListenerConfig ℕ :=
  ⟨1, BackpressurePolicy.FAIL_FAST, true, fun _ => none⟩

/-- Initial listener state for the C5 witness. -/
def s5 : ListenerState ℕ := ⟨[], [], 0⟩

/-- Three incoming frames with no consumer activity, against capacity 1. -/
def evs5 : List ListenEvent :=
  [ListenEvent.frame ("fa") 0 false false,
    ListenEvent.frame ("fb") 1 false false,
    ListenEvent.frame ("fc") 2 false false]

/-- Witness for C5: with capacity 1 and three frames, the queue stays within
capacity and the DLQ trace is exactly the parsed forms of the dropped
frames. -/
theorem listener_fail_fast_backpressure_witness :
    (runEvents cfg5 s5 evs5).queue.length ≤ cfg5.capacity ∧
      (runEvents cfg5 s5 evs5).dlqSends =
        s5.dlqSends ++
          (droppedFrames cfg5 s5 evs5).map (parseForDlq cfg5.jsonLoads) :=
  ⟨(listener_fail_fast_backpressure cfg5 rfl (by decide) s5 (by decide) evs5).1,
    (listener_fail_fast_backpressure cfg5 rfl (by decide) s5 (by decide)
      evs5).2.1 rfl⟩

/-- C6: under DROP_OLDEST, when the first put attempt of a frame times out
and the queue is non-empty, the listener pops the oldest queued item and
marks it consumed with task_done, then retries the put exactly once: if the
retry succeeds the frame is enqueued and nothing reaches the DLQ; if the
retry also times out the frame gets the FAIL_FAST outcome, dropped from the
queue path and forwarded once to the DLQ when one is configured. -/
theorem listener_drop_oldest_retry {J : Type} (cfg : ListenerConfig J)
    (hpol : cfg.policy = BackpressurePolicy.DROP_OLDEST)
    (s : ListenerState J) (raw : String) (t : ℚ) (freed1 freed2 : Bool)
    (hne : s.queue ≠ [])
    (htimeout : tryPut cfg.capacity s.queue ⟨raw, t⟩ freed1 = none) :
    (∀ q2, tryPut cfg.capacity (s.queue.drop 1) ⟨raw, t⟩ freed2 = some q2 →
        listenStep cfg s raw t freed1 freed2 =
          { queue := q2, dlqSends := s.dlqSends,
            taskDoneCount := s.taskDoneCount + 1 }) ∧
      (tryPut cfg.capacity (s.queue.drop 1) ⟨raw, t⟩ freed2 = none →
        listenStep cfg s raw t freed1 freed2 =
          { queue := s.queue.drop 1,
            dlqSends := s.dlqSends ++
              (if cfg.hasDlq then [parseForDlq cfg.jsonLoads raw] else []),
            taskDoneCount := s.taskDoneCount + 1 }) := by
  cases hq : s.queue with
  | nil => exact absurd hq hne
  | cons q0 qs =>
    rw [hq] at htimeout
    constructor
    · intro q2 hr2
      simp only [List.drop_succ_cons, List.drop_zero] at hr2
      unfold listenStep enqueueWithBackpressure handleEnqueueTimeout
      simp only [htimeout, hpol, hq, hr2]
      simp
    · intro hr2
      simp only [List.drop_succ_cons, List.drop_zero] at hr2
      unfold listenStep enqueueWithBackpressure handleEnqueueTimeout
      simp only [htimeout, hpol, hq, hr2, List.drop_succ_cons, List.drop_zero]
      cases hdlq : cfg.hasDlq with
      | true => simp [hdlq]
      | false => simp [hdlq]

/-- Concrete DROP_OLDEST listener configuration for the C6 witness. -/
def cfg6 : ListenerConfig ℕ :=
  ⟨1, BackpressurePolicy.DROP_OLDEST, true, fun _ => none⟩

/-- Full-queue listener state for the C6 witness. -/
def s6 : ListenerState ℕ := ⟨[⟨("fa"), 0⟩], [], 0⟩

/-- Witness for C6: with capacity 1 and a full queue, a frame whose first
put times out evicts the oldest item, is enqueued by the one retry, and the
eviction is marked consumed. -/
theorem listener_drop_oldest_retry_witness :
    listenStep cfg6 s6 ("fb") 1 false false =
      { queue := [⟨("fb"), 1⟩], dlqSends := [], taskDoneCount := 1 } :=
  (listener_drop_oldest_retry cfg6 rfl s6 ("fb") 1 false false
      (by decide) rfl).1 [⟨("fb"), 1⟩] rfl

/-! ## Command router (services/worker_pool_manager.py)

WorkerPoolManager.register builds the trigger dict (insertion-ordered,
later registrations overwrite the same trigger string in place) and the
regex command list (registration order, deduplicated by the id of the
command object, the pattern text and its flags).  _compile_triggers sorts
the literal triggers of each case class and compiles each class into one
alternation regex; for an alternation of escaped literals, re.match finds
the first alternative, in list order, that is a prefix of the text
(case-insensitively under re.IGNORECASE, modelled by ASCII lowercasing).
Regex semantics of user patterns stay abstract: a search oracle decides
whether pattern.search(text) matches. -/

/-- A compiled user regex: its source text and flags; its search behavior
is supplied as an oracle. -/
structure RegexPattern where
  pattern : String
  flags : ℕ
  deriving DecidableEq, Repr

/-- One element of Command.triggers: a literal string or a regex. -/
inductive Trigger where
  | literal (text : String)
  | patternOf (p : RegexPattern)
  deriving DecidableEq, Repr

/-- The router-relevant part of a Command: its object identity, its case
sensitivity flag and its triggers. -/
structure Command where
  cid : ℕ
  case_sensitive : Bool
  triggers : List Trigger
  deriving DecidableEq, Repr

/-- Router tables of WorkerPoolManager: the trigger dict in insertion
order, the regex command list in registration order, and the regex
dedup set. -/
structure RouterTables where
  commands : List (String × Command)
  regex_commands : List (RegexPattern × Command)
  registered_regex : List (ℕ × RegexPattern)
  deriving DecidableEq, Repr

/-- Python dict insert: overwrite an existing key in place, else append. -/
def dictInsert (k : String) (v : Command) :
    List (String × Command) → List (String × Command)
  | [] => [(k, v)]
  | kv :: rest => if kv.1 == k then (k, v) :: rest else kv :: dictInsert k v rest

/-- Python dict lookup. -/
def dictGet (d : List (String × Command)) (k : String) : Option Command :=
  (d.find? (fun kv => kv.1 == k)).map (fun kv => kv.2)

/-- WorkerPoolManager.register: literal triggers go into the dict
(overwriting), regex triggers are appended once per (command identity,
pattern, flags) key. -/
def registerCommand (tables : RouterTables) (c : Command) : RouterTables :=
  c.triggers.foldl
    (fun tb trig =>
      match trig with
      | Trigger.literal s => { tb with commands := dictInsert s c tb.commands }
      | Trigger.patternOf p =>
        if tb.registered_regex.contains (c.cid, p) then tb
        else
          { tb with
            regex_commands := tb.regex_commands ++ [(p, c)]
            registered_regex := tb.registered_regex ++ [(c.cid, p)] })
    tables

/-- Registration of a list of commands into empty tables, in order. -/
def registerAll (cmds : List Command) : RouterTables :=
  cmds.foldl registerCommand ⟨[], [], []⟩

/-- ASCII lowercasing of one character, modelling the case folding that
re.IGNORECASE applies to the escaped literal alternation. -/
def lowerChar (c : Char) : Char :=
  if 65 ≤ c.toNat ∧ c.toNat ≤ 90 then Char.ofNat (c.toNat + 32) else c

/-- Lowercased character sequence of a string. -/
def lowerStr (s : String) : List Char := s.data.map lowerChar

/-- Whether a literal trigger matches the text case-insensitively at the
start (one alternative of the IGNORECASE alternation under re.match). -/
def ciMatches (trigger text : String) : Bool :=
  (lowerStr trigger).isPrefixOf (lowerStr text)

/-- Whether a literal trigger matches the text case-sensitively at the
start (one alternative of the case-sensitive alternation under re.match). -/
def csMatches (trigger text : String) : Bool :=
  trigger.data.isPrefixOf text.data

/-- The string order used by the Python sorted() call on triggers:
lexicographic comparison of the code point sequences. -/
def strLeData (a b : String) : Prop := a.data ≤ b.data

instance : DecidableRel strLeData :=
  fun a b => (inferInstance : Decidable (a.data ≤ b.data))

instance : IsTotal String strLeData := ⟨fun a b => le_total a.data b.data⟩

instance : IsTrans String strLeData :=
  ⟨fun _ _ _ h1 h2 => le_trans h1 h2⟩

/-- The code point order is reflexive. -/
theorem strLeData_refl (a : String) : strLeData a a := le_refl a.data

/-- Strings that bound each other in the code point order are equal. -/
theorem strLeData_antisymm {a b : String} (h1 : strLeData a b)
    (h2 : strLeData b a) : a = b := by
  have hd : a.data = b.data := le_antisymm h1 h2
  cases a
  cases b
  exact congrArg String.mk hd

/-- The two sorted literal trigger collections built by _compile_triggers. -/
structure TriggerIndex where
  sensitive_triggers : List String
  insensitive_triggers : List String
  deriving DecidableEq, Repr

/-- WorkerPoolManager._compile_triggers: split the dict triggers by the
case sensitivity of their command, and sort each class as Python sorted()
does, lexicographically by code points. -/
def compileTriggers (commands : List (String × Command)) : TriggerIndex :=
  { sensitive_triggers :=
      List.insertionSort strLeData
        ((commands.filter (fun tc => tc.2.case_sensitive)).map (fun tc => tc.1))
    insensitive_triggers :=
      List.insertionSort strLeData
        ((commands.filter (fun tc => !tc.2.case_sensitive)).map (fun tc => tc.1)) }

/-- Worker._select_command: the case-insensitive alternation first, then
the case-sensitive alternation, then the first matching regex command; a
matched alternation alternative is mapped back to its trigger string and
looked up in the command dict. -/
def selectCommand (psearch : RegexPattern → String → Bool)
    (commands : List (String × Command)) (idx : TriggerIndex)
    (regex_commands : List (RegexPattern × Command)) (text : String) :
    Option (Command × String) :=
  match idx.insensitive_triggers.find? (fun u => ciMatches u text) with
  | some trigger =>
    match dictGet commands trigger with
    | some c => some (c, trigger)
    | none => none
  | none =>
    match idx.sensitive_triggers.find? (fun u => csMatches u text) with
    | some trigger =>
      match dictGet commands trigger with
      | some c => some (c, trigger)
      | none => none
    | none =>
      match regex_commands.find? (fun pc => psearch pc.1 text) with
      | some pc => some (pc.2, pc.1.pattern)
      | none => none

/-- The least string of a list in the code point order, if any. -/
def leastString : List String → Option String
  | [] => none
  | s :: rest =>
    match leastString rest with
    | none => some s
    | some u => some (if strLeData s u then s else u)

/-- Specification-level router match, following the amended tie-break rule:
among the registered case-insensitive literal triggers that match, the
lexicographically least wins; else among the matching case-sensitive
literal triggers the lexicographically least wins; else the first matching
regex command in registration order wins. -/
def routerSpecMatch (psearch : RegexPattern → String → Bool)
    (commands : List (String × Command))
    (regex_commands : List (RegexPattern × Command)) (text : String) :
    Option (Command × String) :=
  let insensitive :=
    (commands.filter (fun tc => !tc.2.case_sensitive)).map (fun tc => tc.1)
  let sensitive :=
    (commands.filter (fun tc => tc.2.case_sensitive)).map (fun tc => tc.1)
  match leastString (insensitive.filter (fun u => ciMatches u text)) with
  | some trigger =>
    match dictGet commands trigger with
    | some c => some (c, trigger)
    | none => none
  | none =>
    match leastString (sensitive.filter (fun u => csMatches u text)) with
    | some trigger =>
      match dictGet commands trigger with
      | some c => some (c, trigger)
      | none => none
    | none =>
      match regex_commands.find? (fun pc => psearch pc.1 text) with
      | some pc => some (pc.2, pc.1.pattern)
      | none => none

/-- The least string of a list is a member bounding the whole list from
below in the code point order. -/
theorem leastString_spec (l : List String) (a : String)
    (h : leastString l = some a) : a ∈ l ∧ ∀ b ∈ l, strLeData a b := by
  induction l generalizing a with
  | nil => cases h
  | cons s rest ih =>
    unfold leastString at h
    cases hr : leastString rest with
    | none =>
      rw [hr] at h
      cases h
      have hnil : rest = [] := by
        cases rest with
        | nil => rfl
        | cons x xs =>
          exfalso
          unfold leastString at hr
          cases hx : leastString xs <;> rw [hx] at hr <;> cases hr
      subst hnil
      exact ⟨List.mem_singleton_self _, by
        intro b hb
        rw [List.mem_singleton] at hb
        subst hb
        exact strLeData_refl _⟩
    | some u =>
      rw [hr] at h
      cases h
      obtain ⟨humem, hule⟩ := ih u hr
      by_cases hsu : strLeData s u
      · rw [if_pos hsu]
        refine ⟨List.mem_cons_self _ _, ?_⟩
        intro b hb
        rcases List.mem_cons.mp hb with hb | hb
        · subst hb
          exact strLeData_refl _
        · exact le_trans hsu (hule b hb)
      · rw [if_neg hsu]
        refine ⟨List.mem_cons_of_mem _ humem, ?_⟩
        intro b hb
        rcases List.mem_cons.mp hb with hb | hb
        · subst hb
          rcases le_total u.data b.data with h1 | h1
          · exact h1
          · exact absurd h1 hsu
        · exact hule b hb

/-- A member of a list bounding it from below in the code point order is
its least string. -/
theorem leastString_eq_of_le (l : List String) (a : String) (hmem : a ∈ l)
    (hle : ∀ b ∈ l, strLeData a b) : leastString l = some a := by
  induction l with
  | nil => cases hmem
  | cons s rest ih =>
    unfold leastString
    cases hr : leastString rest with
    | none =>
      have hnil : rest = [] := by
        cases rest with
        | nil => rfl
        | cons x xs =>
          exfalso
          unfold leastString at hr
          cases hx : leastString xs <;> rw [hx] at hr <;> cases hr
      subst hnil
      rw [List.mem_singleton] at hmem
      rw [hmem]
    | some u =>
      obtain ⟨humem, hule⟩ := leastString_spec rest u hr
      rcases List.mem_cons.mp hmem with ha | ha
      · subst ha
        have h1 : strLeData a u := hle u (List.mem_cons_of_mem _ humem)
        simp [hr, h1]
      · have h1 : strLeData u a := hule a ha
        have h2 : strLeData a u := hle u (List.mem_cons_of_mem _ humem)
        have h3 : strLeData a s := hle s (List.mem_cons_self _ _)
        have hau : a = u := strLeData_antisymm h2 h1
        subst hau
        by_cases hsa : strLeData s a
        · simp only [hr, if_pos hsa]
          exact congrArg some (strLeData_antisymm hsa h3)
        · simp only [hr, if_neg hsa]

/-- Whether a list has a least string depends only on emptiness, and the
least string itself only on membership: permuted lists agree. -/
theorem leastString_perm (l l2 : List String) (h : l.Perm l2) :
    leastString l = leastString l2 := by
  cases h1 : leastString l with
  | none =>
    have hnil : l = [] := by
      cases l with
      | nil => rfl
      | cons x xs =>
        exfalso
        unfold leastString at h1
        cases hx : leastString xs <;> rw [hx] at h1 <;> cases h1
    subst hnil
    have h2 : l2 = [] := (List.Perm.nil_eq h).symm
    rw [h2]
    rfl
  | some a =>
    obtain ⟨hmem, hle⟩ := leastString_spec l a h1
    exact (leastString_eq_of_le l2 a (h.mem_iff.mp hmem)
      (fun b hb => hle b (h.mem_iff.mpr hb))).symm

/-- Over a sorted list, the first match is the least match. -/
theorem find?_sorted_eq_leastString (l : List String) (p : String → Bool)
    (hs : l.Sorted strLeData) :
    l.find? p = leastString (l.filter p) := by
  induction l with
  | nil => rfl
  | cons a l ih =>
    rw [List.sorted_cons] at hs
    obtain ⟨ha, hl⟩ := hs
    cases hp : p a with
    | true =>
      rw [List.find?_cons_of_pos _ hp, List.filter_cons_of_pos hp]
      refine (leastString_eq_of_le _ a (List.mem_cons_self _ _) ?_).symm
      intro b hb
      rcases List.mem_cons.mp hb with hb | hb
      · subst hb
        exact strLeData_refl _
      · exact ha b (List.mem_of_mem_filter hb)
    | false =>
      rw [List.find?_cons_of_neg _ (by simp [hp]), List.filter_cons_of_neg (by simp [hp])]
      exact ih hl

/-- The first match over the sorted triggers is the least match over the
unsorted triggers. -/
theorem find?_insertionSort_eq_leastString (l : List String) (p : String → Bool) :
    (List.insertionSort strLeData l).find? p = leastString (l.filter p) := by
  rw [find?_sorted_eq_leastString _ p (List.sorted_insertionSort _ l)]
  exact leastString_perm _ _ ((List.perm_insertionSort _ l).filter p)

/-- C4 as amended: the compiled router returns at most one (command,
trigger) pair, chosen by the fixed priority — a case-insensitive literal
match beats any case-sensitive literal match, which beats the first
matching regex in registration order — and within each literal class ties
between matching triggers are broken by lexicographic order of the trigger
strings (the sorted alternation order), not by registration order. -/
theorem router_priority_with_sorted_ties (psearch : RegexPattern → String → Bool)
    (commands : List (String × Command))
    (regex_commands : List (RegexPattern × Command)) (text : String) :
    selectCommand psearch commands (compileTriggers commands) regex_commands
        text =
      routerSpecMatch psearch commands regex_commands text := by
  unfold selectCommand routerSpecMatch compileTriggers
  rw [find?_insertionSort_eq_leastString, find?_insertionSort_eq_leastString]

/-- Command registering the longer literal trigger first. -/
def cmdA : Command := ⟨0, true, [Trigger.literal ("!pingpong")]⟩

/-- Command registering the shorter literal trigger second. -/
def cmdB : Command := ⟨1, true, [Trigger.literal ("!ping")]⟩

/-- Router tables after registering cmdA then cmdB. -/
def tablesC4 : RouterTables := registerAll [cmdA, cmdB]

/-- Regex search oracle for the counterexample (no regex commands). -/
def psearch0 : RegexPattern → String → Bool := fun _ _ => false

/-- Counterexample to C4: both case-sensitive literal triggers match the
text, the trigger of cmdA was registered first, yet the router returns
cmdB with the lexicographically smaller trigger: within a literal class
ties are broken by sorted order, not by registration order. -/
theorem router_registration_order_counterexample :
    tablesC4.commands = [(("!pingpong"), cmdA), (("!ping"), cmdB)] ∧
      csMatches ("!pingpong") ("!pingpong") = true ∧
      csMatches ("!ping") ("!pingpong") = true ∧
      selectCommand psearch0 tablesC4.commands
          (compileTriggers tablesC4.commands) tablesC4.regex_commands
          ("!pingpong") =
        some (cmdB, ("!ping")) := by
  refine ⟨by decide, by decide, by decide, by decide⟩

/-! ## Worker pools (runtime/worker_pool.py and
services/worker_pool_manager.py)

Two start() implementations exist.  WorkerPool.start (runtime) returns
early when the started event is set; WorkerPoolManager.start (services)
has no such guard: it recompiles the triggers and unconditionally appends
pool_size fresh workers and tasks.  The models carry the worker list, the
scheduled task count and the started flag; manager workers also snapshot
the compiled trigger index they were configured with. -/

/-- State of runtime WorkerPool relevant to start(): pool size, worker ids
in creation order, number of scheduled tasks, started flag. -/
structure WorkerPoolModel where
  pool_size : ℕ
  workers : List ℕ
  tasks : ℕ
  started : Bool
  deriving DecidableEq, Repr

/-- WorkerPool.start: return early when already started, else create
pool_size workers with ids 0..pool_size-1, schedule their tasks, and set
the started event. -/
def WorkerPoolModel.start (p : WorkerPoolModel) : WorkerPoolModel :=
  if p.started then p
  else
    { p with
      workers := p.workers ++ List.range p.pool_size
      tasks := p.tasks + p.pool_size
      started := true }

/-- State of WorkerPoolManager relevant to start(): registration tables,
the compiled index, worker snapshots (compiled index and id), task count
and started flag. -/
structure WorkerPoolManagerModel where
  pool_size : ℕ
  commands : List (String × Command)
  regex_commands : List (RegexPattern × Command)
  index : TriggerIndex
  workers : List (TriggerIndex × ℕ)
  tasks : ℕ
  started : Bool
  deriving DecidableEq, Repr

/-- WorkerPoolManager.start: always recompile the triggers and append
pool_size fresh workers and tasks, then set the started event — with no
already-started guard. -/
def WorkerPoolManagerModel.start (m : WorkerPoolManagerModel) :
    WorkerPoolManagerModel :=
  let idx := compileTriggers m.commands
  { m with
    index := idx
    workers := m.workers ++ (List.range m.pool_size).map (fun i => (idx, i))
    tasks := m.tasks + m.pool_size
    started := true }

/-- A fresh manager with pool size 4 and no registrations. -/
def mWPM : WorkerPoolManagerModel :=
  { pool_size := 4
    commands := []
    regex_commands := []
    index := ⟨[], []⟩
    workers := []
    tasks := 0
    started := false }

/-- Counterexample to C9: WorkerPoolManager.start on an already-started
pool creates four more workers and tasks instead of leaving the state
unchanged. -/
theorem worker_pool_manager_start_counterexample :
    (mWPM.start).started = true ∧
      (mWPM.start).workers.length = 4 ∧
      (mWPM.start).tasks = 4 ∧
      (mWPM.start.start).workers.length = 8 ∧
      (mWPM.start.start).tasks = 8 ∧
      mWPM.start.start ≠ mWPM.start := by
  refine ⟨rfl, by decide, by decide, by decide, by decide, by decide⟩

/-- C9 as amended: the runtime WorkerPool.start is idempotent — a second
call on any pool is a no-op and a started pool is left entirely unchanged —
while WorkerPoolManager.start has no started guard and every call appends
pool_size additional workers and pool_size additional tasks. -/
theorem worker_pool_start_idempotence :
    (∀ p : WorkerPoolModel, p.start.start = p.start) ∧
      (∀ p : WorkerPoolModel, p.started = true → p.start = p) ∧
      (∀ m : WorkerPoolManagerModel,
        (m.start).workers.length = m.workers.length + m.pool_size ∧
          (m.start).tasks = m.tasks + m.pool_size) := by
  refine ⟨?_, ?_, ?_⟩
  · intro p
    by_cases h : p.started
    · simp [WorkerPoolModel.start, h]
    · simp [WorkerPoolModel.start, h]
  · intro p h
    simp [WorkerPoolModel.start, h]
  · intro m
    constructor
    · simp [WorkerPoolManagerModel.start]
    · simp [WorkerPoolManagerModel.start]

/-- Witness for C9 as amended: a concrete started pool is unchanged by a
second start, and the concrete manager grows by its pool size. -/
theorem worker_pool_start_idempotence_witness :
    (⟨4, [], 0, false⟩ : WorkerPoolModel).start.start =
        (⟨4, [], 0, false⟩ : WorkerPoolModel).start ∧
      (⟨4, [0, 1, 2, 3], 4, true⟩ : WorkerPoolModel).start =
        ⟨4, [0, 1, 2, 3], 4, true⟩ ∧
      (mWPM.start).workers.length = mWPM.workers.length + mWPM.pool_size :=
  ⟨worker_pool_start_idempotence.1 ⟨4, [], 0, false⟩,
    worker_pool_start_idempotence.2.1 ⟨4, [0, 1, 2, 3], 4, true⟩ rfl,
    (worker_pool_start_idempotence.2.2 mWPM).1⟩

end SignalClient
